import Mathlib

/-!
Verification of the IRC message core of the `ircd` repository
(`src/structs.rs`): the wire-line parser `IrcMessage::try_from`, the
serializer `IrcMessage::to_line`, the command interpreter
`IrcMessage::to_command` / `get_command_parameter`, and the reply catalog
`Reply::as_str` / `Reply::as_line`.

Strings are modelled as `List Char`; byte indices of the Rust code become
character indices (every index the Rust code slices at is the position of
an ASCII space or colon, or the string length, so the two agree on the
substrings produced).  A separate byte-level model at the end of the file
is used for the panic-freedom property, where UTF-8 boundaries matter.
-/

namespace Ircd

/-- Shorthand: the character list of a string literal. -/
def str (s : String) : List Char := s.data

instance {ε α : Type} [DecidableEq ε] [DecidableEq α] :
    DecidableEq (Except ε α) := fun x y =>
  match x, y with
  | .ok a, .ok b =>
      if h : a = b then .isTrue (by rw [h]) else .isFalse (by simp [h])
  | .error a, .error b =>
      if h : a = b then .isTrue (by rw [h]) else .isFalse (by simp [h])
  | .ok _, .error _ => .isFalse (by simp)
  | .error _, .ok _ => .isFalse (by simp)

/-- Model of `struct IrcMessage`: `Option (List Char)` stands for Rust's
`Option<&str>` field `prefix`
(the field is named `pfx` here); `command_parameters` keeps its source
name.  Mirrors `struct IrcMessage` in `src/structs.rs`. -/
structure IrcMessage where
  pfx : Option (List Char)
  command : List Char
  command_parameters : List (List Char)
deriving DecidableEq, Repr

/-- Rust `str::find(char)`: index of the first occurrence. -/
def findc (c : Char) : List Char → Option Nat
  | [] => none
  | a :: t => if a = c then some 0 else (findc c t).map (· + 1)

/-- Rust `str::find(two-char pattern)`: index of the first occurrence of
the adjacent pair `a, b`. -/
def findSub2 (a b : Char) : List Char → Option Nat
  | x :: y :: t =>
      if x = a ∧ y = b then some 0 else (findSub2 a b (y :: t)).map (· + 1)
  | _ => none

/-- Rust slice `s[a..b]` (on the valid inputs the parser uses). -/
def slice (s : List Char) (a b : Nat) : List Char := (s.drop a).take (b - a)

/-- The command-and-parameters part of `IrcMessage::try_from`
(`src/structs.rs` lines 99–147), starting at cursor `start0`, after the
optional prefix has been consumed.  `idx` is `s[start..].find(' ')`
defaulted to the remainder length; the trailer is everything after the
first `" :"`; the positional region `s[start+1..end]` is split on single
spaces only when `start < end`. -/
def parseAfter (s : List Char) (start0 : Nat) (pfx : Option (List Char)) :
    IrcMessage :=
  let idx := (findc ' ' (s.drop start0)).getD (s.drop start0).length
  let command := slice s start0 (start0 + idx)
  let start := start0 + idx
  match findSub2 ' ' ':' (s.drop start) with
  | some i =>
      let trailer := s.drop (start + i + 2)
      let ps :=
        if start < start + i then (slice s (start + 1) (start + i)).splitOn ' '
        else []
      ⟨pfx, command, ps ++ [trailer]⟩
  | none =>
      let ps :=
        if start < s.length then (slice s (start + 1) s.length).splitOn ' '
        else []
      ⟨pfx, command, ps⟩

/-- Rust `IrcMessage::try_from(&str)` (`src/structs.rs` lines 66–147).
Empty input is rejected; a line whose first character is `':'` must have
a space after a non-empty prefix; the rest is `parseAfter`. -/
def tryFrom (s : List Char) : Except String IrcMessage :=
  if s = [] then .error "IRC message may not be empty"
  else
    match findc ':' s with
    | some 0 =>
        match findc ' ' (s.drop 1) with
        | none => .error "Found prefix indication, followed by invalid prefix"
        | some 0 => .error "Found prefix indication, followed by invalid prefix"
        | some (pe + 1) =>
            .ok (parseAfter s (pe + 3) (some (slice s 1 (pe + 2))))
    | _ => .ok (parseAfter s 0 none)

/-- Rust `IrcMessage::to_line` (`src/structs.rs` lines 281–308): optional
`":" ++ prefix ++ " "`, the command, then — when parameters exist — a
space and the parameters joined by single spaces with the last one
replaced by `":" ++ last`, and finally CRLF. -/
def to_line (m : IrcMessage) : List Char :=
  (match m.pfx with
   | some p => ':' :: p ++ [' ']
   | none => []) ++
  m.command ++
  (if m.command_parameters.length > 0 then
    ' ' :: [' '].intercalate
      (m.command_parameters.dropLast ++
        [':' :: m.command_parameters.getLastD []])
   else []) ++
  ['\r', '\n']

/-- The spec's parameter rule (§4.1 step 5), stated on the remainder that
follows the command.  The cursor is left on the space separating the
command from its parameters, so a non-empty remainder starts with that
space: the first `" :"` occurrence marks the trailer, what lies strictly
between the separating space and the marker space is split on single
spaces, empty splits kept.  The empty-remainder clause carries the
amendment forced by the code: when the remainder is exactly the
separating space, the empty string after it is still split, giving one
empty parameter. -/
def paramsFromRemainder (rem : List Char) : List (List Char) :=
  match findSub2 ' ' ':' rem with
  | some i =>
      (if 0 < i then ((rem.drop 1).take (i - 1)).splitOn ' ' else []) ++
        [rem.drop (i + 2)]
  | none => if rem = [] then [] else (rem.drop 1).splitOn ' '

/-- Rust `enum Command` in `src/structs.rs`. -/
inductive Command where
  | PASS (password : List Char)
  | NICK (nick : List Char)
  | USER (user mode unused realname : List Char)
deriving DecidableEq, Repr

/-- Rust `enum ParseError` together with its payload structs
`UnknownCommand`
and `MissingCommandParameter` in `src/structs.rs`. -/
inductive ParseError where
  | UnknownCommandError (command : List Char)
  | MissingCommandParameterError (command : List Char)
      (parameter : List Char) (index : Nat)
deriving DecidableEq, Repr

/-- Rust `IrcMessage::get_command_parameter` (`src/structs.rs` lines
251–261). -/
def get_command_parameter (m : IrcMessage) (idx : Nat) (name : List Char) :
    Except ParseError (List Char) :=
  match m.command_parameters.get? idx with
  | some p => .ok p
  | none =>
      .error (.MissingCommandParameterError m.command name idx)

/-- Rust `IrcMessage::to_command` (`src/structs.rs` lines 228–249): exact,
case-sensitive dispatch on the command string. -/
def to_command (m : IrcMessage) : Except ParseError Command :=
  if m.command = str "PASS" then do
    let password ← get_command_parameter m 0 (str "password")
    return .PASS password
  else if m.command = str "NICK" then do
    let nick ← get_command_parameter m 0 (str "nick")
    return .NICK nick
  else if m.command = str "USER" then do
    let user ← get_command_parameter m 0 (str "user")
    let mode ← get_command_parameter m 1 (str "mode")
    let unused ← get_command_parameter m 2 (str "unused")
    let realname ← get_command_parameter m 3 (str "realname")
    return .USER user mode unused realname
  else .error (.UnknownCommandError m.command)

/-- Rust `enum Reply` in `src/structs.rs`. -/
inductive Reply where
  | RPL_WELCOME (nick user host : List Char)
  | ERR_UNKNOWNCOMMAND (command : List Char)
  | ERR_NEEDMOREPARAMS (command : List Char)
deriving DecidableEq, Repr

/-- Rust `Reply::as_str` (`src/structs.rs` lines 161–170). -/
def Reply.as_str : Reply → List Char
  | .RPL_WELCOME _ _ _ => str "001"
  | .ERR_UNKNOWNCOMMAND _ => str "421"
  | .ERR_NEEDMOREPARAMS _ => str "461"

/-- Rust `Reply::as_line` (`src/structs.rs` lines 172–202). -/
def Reply.as_line : Reply → List Char
  | r@(.RPL_WELCOME nick user host) =>
      to_line ⟨some (str "localhost"), r.as_str,
        [nick,
         str "Welcome to the network " ++ nick ++ str "!" ++ user ++
           str "@" ++ host]⟩
  | r@(.ERR_UNKNOWNCOMMAND command) =>
      to_line ⟨some (str "localhost"), r.as_str,
        [command, str "Unknown command"]⟩
  | r@(.ERR_NEEDMOREPARAMS command) =>
      to_line ⟨some (str "localhost"), r.as_str,
        [command, str "Not enough parameters"]⟩

/-! ### Byte-level model for panic-freedom

Rust slices `&str` by byte index and panics when an index is not a char
boundary (`str::is_char_boundary`) or exceeds the length.  The model
below re-traces `IrcMessage::try_from` over the raw bytes, with every
slice checked exactly as Rust checks it; `none` models a panic.
`0x20` is the space byte and `0x3A` the colon byte. -/

/-- UTF-8 continuation byte. -/
def isCont (b : Nat) : Bool := 0x80 ≤ b && b < 0xC0

/-- Lead/continuation well-formedness of a UTF-8 byte sequence as a
byte automaton: the state is the number of continuation bytes still
owed.  From state 0, an ASCII byte owes none, a two-, three- or
four-byte leader owes 1, 2 or 3, and a continuation byte or an
over-long leader is invalid; from a positive state only a continuation
byte is accepted.  This is the shape a Rust `&str` guarantees. -/
def utf8Valid2 : Nat → List Nat → Bool
  | 0, [] => true
  | _+1, [] => false
  | 0, b :: r =>
      if b < 0x80 then utf8Valid2 0 r
      else if b < 0xC0 then false
      else if b < 0xE0 then utf8Valid2 1 r
      else if b < 0xF0 then utf8Valid2 2 r
      else if b < 0xF8 then utf8Valid2 3 r
      else false
  | k+1, b :: r => isCont b && utf8Valid2 k r

/-- A valid UTF-8 byte sequence: the automaton accepts from state 0. -/
def utf8ValidB (l : List Nat) : Bool := utf8Valid2 0 l

/-- Rust `str::is_char_boundary`: start, end, or a non-continuation
byte. -/
def isBoundary (s : List Nat) (p : Nat) : Bool :=
  p == 0 || p == s.length ||
    (match s.get? p with
     | some b => !(isCont b)
     | none => false)

/-- Checked Rust slice `&s[a..b]`; `none` models the slicing panic. -/
def bslice (s : List Nat) (a b : Nat) : Option (List Nat) :=
  if a ≤ b ∧ b ≤ s.length ∧ isBoundary s a = true ∧ isBoundary s b = true
  then some ((s.drop a).take (b - a))
  else none

/-- Checked Rust slice `&s[a..]`. -/
def bsliceFrom (s : List Nat) (a : Nat) : Option (List Nat) :=
  bslice s a s.length

/-- Byte-level `str::find` of a single byte. -/
def bfind (b : Nat) : List Nat → Option Nat
  | [] => none
  | x :: t => if x = b then some 0 else (bfind b t).map (· + 1)

/-- Byte-level `str::find` of a two-byte pattern. -/
def bfind2 (a b : Nat) : List Nat → Option Nat
  | x :: y :: t =>
      if x = a ∧ y = b then some 0 else (bfind2 a b (y :: t)).map (· + 1)
  | _ => none

/-- The byte-level result record. -/
structure ByteMsg where
  pfx : Option (List Nat)
  command : List Nat
  command_parameters : List (List Nat)
deriving DecidableEq, Repr

/-- Byte-level command-and-parameters phase of `IrcMessage::try_from`,
every slice checked; `none` = panic. -/
def byteParseAfter (s : List Nat) (start0 : Nat) (pfx : Option (List Nat)) :
    Option ByteMsg :=
  match bsliceFrom s start0 with
  | none => none
  | some tail0 =>
    let idx := (bfind 0x20 tail0).getD tail0.length
    match bslice s start0 (start0 + idx) with
    | none => none
    | some command =>
      let start := start0 + idx
      match bsliceFrom s start with
      | none => none
      | some rem =>
        match bfind2 0x20 0x3A rem with
        | some i =>
            match bsliceFrom s (start + i + 2) with
            | none => none
            | some trailer =>
                if start < start + i then
                  match bslice s (start + 1) (start + i) with
                  | none => none
                  | some region =>
                      some ⟨pfx, command, region.splitOn 0x20 ++ [trailer]⟩
                else some ⟨pfx, command, [trailer]⟩
        | none =>
            if start < s.length then
              match bslice s (start + 1) s.length with
              | none => none
              | some region => some ⟨pfx, command, region.splitOn 0x20⟩
            else some ⟨pfx, command, []⟩

/-- Byte-level `IrcMessage::try_from`, every slice checked; `none` =
panic, `some (.error _)` = the normal error returns, `some (.ok _)` = a
parsed message. -/
def byteTryFrom (s : List Nat) : Option (Except String ByteMsg) :=
  if s = [] then some (.error "IRC message may not be empty")
  else
    match bfind 0x3A s with
    | some 0 =>
        match bsliceFrom s 1 with
        | none => none
        | some tail1 =>
          match bfind 0x20 tail1 with
          | none =>
              some (.error "Found prefix indication, followed by invalid prefix")
          | some 0 =>
              some (.error "Found prefix indication, followed by invalid prefix")
          | some (pe + 1) =>
              match bslice s 1 (pe + 2) with
              | none => none
              | some pfxBytes => (byteParseAfter s (pe + 3) (some pfxBytes)).map .ok
    | _ => (byteParseAfter s 0 none).map .ok

/-! ### Lemmas about `findc` and `findSub2` -/

theorem findc_eq_none {c : Char} {l : List Char} (h : c ∉ l) :
    findc c l = none := by
  induction l with
  | nil => rfl
  | cons a t ih =>
      simp only [List.mem_cons, not_or] at h
      simp [findc, Ne.symm h.1, ih h.2]

theorem findc_append_sep {c : Char} {xs : List Char} (ys : List Char)
    (h : c ∉ xs) : findc c (xs ++ c :: ys) = some xs.length := by
  induction xs with
  | nil => simp [findc]
  | cons a t ih =>
      simp only [List.mem_cons, not_or] at h
      simp [findc, Ne.symm h.1, ih h.2]

theorem findc_zero_iff {c : Char} {l : List Char} :
    findc c l = some 0 ↔ l.head? = some c := by
  cases l with
  | nil => simp [findc]
  | cons a t =>
      by_cases h : a = c
      · simp [findc, h]
      · simp only [findc, if_neg h, List.head?_cons, Option.some.injEq]
        constructor
        · intro hm
          rcases Option.map_eq_some'.mp hm with ⟨n, _, hn⟩
          omega
        · intro hh
          exact absurd hh h

theorem findSub2_cons_none_iff {a b x : Char} {l : List Char} :
    findSub2 a b (x :: l) = none ↔
      ((l.head? = some b → x ≠ a) ∧ findSub2 a b l = none) := by
  cases l with
  | nil => simp [findSub2]
  | cons y t =>
      by_cases hxy : x = a ∧ y = b
      · simp [findSub2, hxy, hxy.1, hxy.2]
      · have h1 : ((y :: t).head? = some b → x ≠ a) := by
          intro hy hx
          exact hxy ⟨hx, by simpa using hy⟩
        simp only [findSub2, if_neg hxy, Option.map_eq_none']
        exact ⟨fun hn => ⟨h1, hn⟩, fun hn => hn.2⟩

theorem findSub2_not_mem {a b : Char} {l : List Char} (h : a ∉ l) :
    findSub2 a b l = none := by
  induction l with
  | nil => rfl
  | cons x t ih =>
      simp only [List.mem_cons, not_or] at h
      exact findSub2_cons_none_iff.mpr ⟨fun _ => Ne.symm h.1, ih h.2⟩

theorem findSub2_append_eq_none {a b : Char} {xs R : List Char} (hx : a ∉ xs)
    (hR : findSub2 a b R = none) : findSub2 a b (xs ++ R) = none := by
  induction xs with
  | nil => simpa
  | cons x t ih =>
      simp only [List.mem_cons, not_or] at hx
      exact findSub2_cons_none_iff.mpr ⟨fun _ => Ne.symm hx.1, ih hx.2⟩

theorem findSub2_append_marker {M : List Char} (ys : List Char)
    (h : findSub2 ' ' ':' M = none) :
    findSub2 ' ' ':' (M ++ ' ' :: ':' :: ys) = some M.length := by
  induction M with
  | nil => simp [findSub2]
  | cons x t ih =>
      rcases findSub2_cons_none_iff.mp h with ⟨h1, h2⟩
      cases t with
      | nil =>
          have hsc : ¬ (x = ' ' ∧ (' ' : Char) = ':') := by
            rintro ⟨-, hh⟩
            exact absurd hh (by decide)
          simp [findSub2, if_neg hsc]
      | cons y u =>
          have hp : ¬ (x = ' ' ∧ y = ':') := by
            rintro ⟨hx, hy⟩
            exact h1 (by simp [hy]) hx
          have ih2 := ih h2
          simp only [List.cons_append] at ih2 ⊢
          simp [findSub2, if_neg hp, ih2]

/-! ### Lemmas about `intercalate` -/

theorem intercalate_single (c : Char) (p : List Char) :
    [c].intercalate [p] = p := by
  simp [List.intercalate]

theorem intercalate_cons (c : Char) (p q : List Char) (ps : List (List Char)) :
    [c].intercalate (p :: q :: ps) = p ++ c :: [c].intercalate (q :: ps) := by
  simp [List.intercalate, List.intersperse_cons_cons]

theorem intercalate_cons_of_ne (c : Char) (p : List Char)
    {ps : List (List Char)} (h : ps ≠ []) :
    [c].intercalate (p :: ps) = p ++ c :: [c].intercalate ps := by
  cases ps with
  | nil => exact absurd rfl h
  | cons q t => exact intercalate_cons c p q t

theorem intercalate_append_single (c : Char) {ps : List (List Char)}
    (h : ps ≠ []) (x : List Char) :
    [c].intercalate (ps ++ [x]) = [c].intercalate ps ++ c :: x := by
  induction ps with
  | nil => exact absurd rfl h
  | cons p t ih =>
      cases t with
      | nil => simp [intercalate_cons, intercalate_single]
      | cons q u =>
          have ih2 := ih (by simp)
          simp only [List.cons_append] at ih2 ⊢
          rw [intercalate_cons_of_ne c p (by simp), ih2,
            intercalate_cons c p q u]
          simp

theorem head?_intercalate_ne {ps : List (List Char)} (c b : Char) (hb : c ≠ b)
    (h : ∀ p ∈ ps, p.head? ≠ some b) :
    ([c].intercalate ps).head? ≠ some b := by
  cases ps with
  | nil => simp [List.intercalate]
  | cons p t =>
      cases t with
      | nil =>
          rw [intercalate_single]
          exact h p (by simp)
      | cons q u =>
          rw [intercalate_cons]
          cases p with
          | nil => simpa using hb
          | cons a m =>
              simpa using fun hh => (h (a :: m) (by simp)) (by simp [hh])

theorem findSub2_intercalate_eq_none {ps : List (List Char)}
    (h : ∀ p ∈ ps, ' ' ∉ p ∧ p.head? ≠ some ':') :
    findSub2 ' ' ':' ([' '].intercalate ps) = none := by
  induction ps with
  | nil => rfl
  | cons p t ih =>
      cases t with
      | nil =>
          rw [intercalate_single]
          exact findSub2_not_mem (h p (by simp)).1
      | cons q u =>
          rw [intercalate_cons_of_ne ' ' p (by simp)]
          refine findSub2_append_eq_none (h p (by simp)).1 ?_
          refine findSub2_cons_none_iff.mpr ⟨?_, ih ?_⟩
          · intro hh _
            refine head?_intercalate_ne ' ' ':' (by decide) ?_ hh
            intro r hr
            exact (h r (by simp [hr])).2
          · intro r hr
            exact h r (by simp [hr])

/-! ### The parameter region of a serialized message parses back -/

theorem paramsFromRemainder_marked (ps : List (List Char)) (lst : List Char)
    (h : ∀ p ∈ ps, ' ' ∉ p ∧ p.head? ≠ some ':') :
    paramsFromRemainder (' ' :: [' '].intercalate (ps ++ [':' :: lst])) =
      ps ++ [lst] := by
  cases ps with
  | nil =>
      have hf : findSub2 ' ' ':' (' ' :: ':' :: lst) = some 0 := by
        simp [findSub2]
      simp [paramsFromRemainder, intercalate_single, hf]
  | cons p0 pt =>
      have hne : p0 :: pt ≠ [] := by simp
      rw [intercalate_append_single ' ' hne (':' :: lst)]
      set M := [' '].intercalate (p0 :: pt) with hM
      have hMn : findSub2 ' ' ':' M = none :=
        findSub2_intercalate_eq_none h
      have hhd : M.head? ≠ some ':' := by
        refine head?_intercalate_ne ' ' ':' (by decide) ?_
        intro r hr
        exact (h r hr).2
      have hcons : findSub2 ' ' ':' (' ' :: M) = none :=
        findSub2_cons_none_iff.mpr ⟨fun hh => absurd hh hhd, hMn⟩
      have hf : findSub2 ' ' ':' (' ' :: (M ++ ' ' :: ':' :: lst)) =
          some (M.length + 1) := by
        have := findSub2_append_marker (M := ' ' :: M) lst hcons
        simpa using this
      have hregion : ((' ' :: (M ++ ' ' :: ':' :: lst)).drop 1).take
          (M.length + 1 - 1) = M := by
        simp [List.take_left]
      have htrail : (' ' :: (M ++ ' ' :: ':' :: lst)).drop (M.length + 1 + 2) =
          lst := by
        have harr : ' ' :: (M ++ ' ' :: ':' :: lst) =
            ((' ' :: M) ++ [' ', ':']) ++ lst := by simp
        rw [harr]
        have hlen : ((' ' :: M) ++ [' ', ':']).length = M.length + 1 + 2 := by
          simp
        rw [← hlen, List.drop_left]
      have hsplit : M.splitOn ' ' = p0 :: pt := by
        rw [hM]
        exact List.splitOn_intercalate _ ' ' (fun l hl => (h l hl).1) hne
      simp only [paramsFromRemainder, hf, hregion, htrail, hsplit,
        Nat.zero_lt_succ, if_pos]

/-- The command-and-parameters phase: if the text from the cursor on
decomposes as a space-free command followed by a remainder that is empty
or starts with a space, `parseAfter` returns exactly that command and the
spec's parameters of the remainder. -/
theorem parseAfter_spec (s : List Char) (start0 : Nat)
    (pfx : Option (List Char)) (command rem : List Char)
    (hstart : start0 ≤ s.length)
    (hdrop : s.drop start0 = command ++ rem) (hcmd : ' ' ∉ command)
    (hrem : rem = [] ∨ rem.head? = some ' ') :
    parseAfter s start0 pfx = ⟨pfx, command, paramsFromRemainder rem⟩ := by
  have hidx : (findc ' ' (s.drop start0)).getD (s.drop start0).length
      = command.length := by
    rcases hrem with hnil | hsp
    · subst hnil
      rw [hdrop, List.append_nil, findc_eq_none hcmd]
      simp
    · cases rem with
      | nil => simp at hsp
      | cons a t =>
          have ha : a = ' ' := by simpa using hsp
          subst ha
          rw [hdrop, findc_append_sep t hcmd]
          rfl
  have hslen : s.length = start0 + command.length + rem.length := by
    have h1 : (s.drop start0).length = s.length - start0 :=
      List.length_drop _ _
    rw [hdrop] at h1
    simp only [List.length_append] at h1
    omega
  have hcommand : slice s start0 (start0 + command.length) = command := by
    unfold slice
    rw [Nat.add_sub_cancel_left, hdrop, List.take_left]
  have hrest : s.drop (start0 + command.length) = rem := by
    rw [← List.drop_drop, hdrop, List.drop_left]
  have hrest1 : s.drop (start0 + command.length + 1) = rem.drop 1 := by
    rw [← List.drop_drop, hrest]
  simp only [parseAfter, hidx, hcommand, hrest, hrest1]
  cases hf : findSub2 ' ' ':' rem with
  | none =>
      simp only [paramsFromRemainder, hf]
      by_cases h0 : rem = []
      · have : ¬ (start0 + command.length < s.length) := by
          subst h0
          simp at hslen
          omega
        simp [this, h0]
      · have hlt : start0 + command.length < s.length := by
          have : rem.length ≠ 0 := by simpa using h0
          omega
        have hsl : slice s (start0 + command.length + 1) s.length =
            rem.drop 1 := by
          unfold slice
          rw [hrest1]
          have : s.length - (start0 + command.length + 1) =
              (rem.drop 1).length := by
            rw [List.length_drop]
            omega
          rw [this, List.take_length]
        simp [hlt, h0, hsl]
  | some i =>
      have htrail : s.drop (start0 + command.length + i + 2) =
          rem.drop (i + 2) := by
        have h2 := List.drop_drop (i + 2) (start0 + command.length) s
        rw [hrest] at h2
        rw [h2]
        have h3 : start0 + command.length + i + 2 =
            start0 + command.length + (i + 2) := by omega
        rw [h3]
      have hregion : slice s (start0 + command.length + 1)
          (start0 + command.length + i) = (rem.drop 1).take (i - 1) := by
        unfold slice
        rw [hrest1]
        congr 1
        omega
      simp only [paramsFromRemainder, hf]
      by_cases h0 : 0 < i
      · have hlt : start0 + command.length < start0 + command.length + i := by
          omega
        simp only [if_pos hlt, if_pos h0, hregion, htrail]
      · have hi : i = 0 := by omega
        subst hi
        have hlt : ¬ (start0 + command.length <
            start0 + command.length + 0) := by omega
        simp only [if_neg hlt, if_neg h0, htrail]

/-! ### Reducing `tryFrom` to `parseAfter` -/

theorem tryFrom_no_colon_head {s : List Char} (hne : s ≠ [])
    (hh : s.head? ≠ some ':') : tryFrom s = .ok (parseAfter s 0 none) := by
  have hf : findc ':' s ≠ some 0 := fun hc => hh (findc_zero_iff.mp hc)
  simp only [tryFrom, if_neg hne]

theorem tryFrom_with_pfx (p rest : List Char) (hp : ' ' ∉ p) (hpn : p ≠ []) :
    tryFrom (':' :: (p ++ ' ' :: rest)) =
      .ok (parseAfter (':' :: (p ++ ' ' :: rest)) (p.length + 2) (some p)) := by
  cases p with
  | nil => exact absurd rfl hpn
  | cons a t =>
      have hp' : ' ' ∉ (a :: t : List Char) := hp
      have hfc : findc ':' (':' :: ((a :: t) ++ ' ' :: rest)) = some 0 := by
        simp [findc]
      have hfs : findc ' ' ((a :: t) ++ ' ' :: rest) = some (t.length + 1) :=
        findc_append_sep rest hp'
      have hsl : slice (':' :: ((a :: t) ++ ' ' :: rest)) 1 (t.length + 2) =
          a :: t := by
        unfold slice
        have h1 : (':' :: ((a :: t) ++ ' ' :: rest)).drop 1 =
            (a :: t) ++ ' ' :: rest := rfl
        rw [h1]
        have h2 : t.length + 2 - 1 = (a :: t).length := by simp
        rw [h2, List.take_left]
      have hne : (':' :: ((a :: t) ++ ' ' :: rest)) ≠ [] := by simp
      simp only [tryFrom, if_neg hne]
      rw [hfc]
      show (match findc ' ' ((':' :: ((a :: t) ++ ' ' :: rest)).drop 1) with
        | none => Except.error "Found prefix indication, followed by invalid prefix"
        | some 0 => Except.error "Found prefix indication, followed by invalid prefix"
        | some (pe + 1) =>
            Except.ok (parseAfter (':' :: ((a :: t) ++ ' ' :: rest)) (pe + 3)
              (some (slice (':' :: ((a :: t) ++ ' ' :: rest)) 1 (pe + 2))))) = _
      have hdr : (':' :: ((a :: t) ++ ' ' :: rest)).drop 1 =
          (a :: t) ++ ' ' :: rest := rfl
      rw [hdr, hfs]
      simp only [hsl]
      simp

/-! ### Claim theorems on the parser -/

/-- C9: the empty line is rejected with the empty-message error, and a
line starting with `':'` whose tail has no space, or a space right after
the colon, is rejected with the prefix error. -/
theorem parse_rejects_empty_and_bad_pfx :
    tryFrom [] = .error "IRC message may not be empty" ∧
    (∀ s : List Char, s.head? = some ':' →
      ((' ' ∉ s.drop 1) ∨ (s.drop 1).head? = some ' ') →
      tryFrom s = .error "Found prefix indication, followed by invalid prefix") := by
  refine ⟨rfl, ?_⟩
  intro s hh hsp
  have hne : s ≠ [] := by
    intro h
    rw [h] at hh
    simp at hh
  have hf : findc ':' s = some 0 := findc_zero_iff.mpr hh
  simp only [tryFrom, if_neg hne]
  rw [hf]
  rcases hsp with hnone | hzero
  · rw [findc_eq_none hnone]
  · rw [findc_zero_iff.mpr hzero]

/-- C9 witness: the three concrete rejections named by the claim. -/
theorem parse_rejects_empty_and_bad_pfx_witness :
    tryFrom (str ":") = .error "Found prefix indication, followed by invalid prefix" ∧
    tryFrom (str ": foo") = .error "Found prefix indication, followed by invalid prefix" ∧
    tryFrom (str "") = .error "IRC message may not be empty" :=
  ⟨parse_rejects_empty_and_bad_pfx.2 (str ":") (by decide) (Or.inl (by decide)),
   parse_rejects_empty_and_bad_pfx.2 (str ": foo") (by decide) (Or.inr (by decide)),
   parse_rejects_empty_and_bad_pfx.1⟩

/-- C1 (code bug): the parser accepts lines whose command is empty.  A
leading space makes the command the empty string with the rest still
parsed into parameters, and a prefix followed by a single trailing space
parses with an empty command, instead of the missing-command rejection
the spec requires. -/
theorem parse_accepts_empty_command :
    tryFrom (str " FOO bar") = .ok ⟨none, [], [str "FOO", str "bar"]⟩ ∧
    tryFrom (str ":pre ") = .ok ⟨some (str "pre"), [], []⟩ ∧
    (∀ rest : List Char, ∃ ps, tryFrom (' ' :: rest) = .ok ⟨none, [], ps⟩) := by
  refine ⟨by decide, by decide, ?_⟩
  intro rest
  refine ⟨paramsFromRemainder (' ' :: rest), ?_⟩
  have hne : (' ' :: rest : List Char) ≠ [] := by simp
  have hh : (' ' :: rest : List Char).head? ≠ some ':' := by
    simp only [List.head?_cons, Ne, Option.some.injEq]
    decide
  rw [tryFrom_no_colon_head hne hh]
  have := parseAfter_spec (' ' :: rest) 0 none [] (' ' :: rest)
    (by omega) (by simp) (by simp) (Or.inr rfl)
  rw [this]

/-- C2 (amended): on any accepted line made of an optional well-formed
prefix, a space-free command not starting with `':'` and a remainder
that is empty or starts with a space, the parameters are exactly the
spec's rule applied to the remainder — including the amendment that a
command followed by a bare trailing space yields one empty parameter,
not zero. -/
theorem parse_parameter_rule (cmdpart rem : List Char)
    (h2 : ' ' ∉ cmdpart) (h3 : cmdpart.head? ≠ some ':')
    (h4 : rem = [] ∨ rem.head? = some ' ') :
    (cmdpart ≠ [] →
      tryFrom (cmdpart ++ rem) =
        .ok ⟨none, cmdpart, paramsFromRemainder rem⟩) ∧
    (∀ p, p ≠ [] → ' ' ∉ p →
      tryFrom (':' :: (p ++ ' ' :: (cmdpart ++ rem))) =
        .ok ⟨some p, cmdpart, paramsFromRemainder rem⟩) := by
  constructor
  · intro h1
    have hne : cmdpart ++ rem ≠ [] := by simp [h1]
    have hh : (cmdpart ++ rem).head? ≠ some ':' := by
      cases cmdpart with
      | nil => exact absurd rfl h1
      | cons a t => simpa using h3
    rw [tryFrom_no_colon_head hne hh]
    rw [parseAfter_spec (cmdpart ++ rem) 0 none cmdpart rem (by omega)
      (by simp) h2 h4]
  · intro p hpne hpsp
    rw [tryFrom_with_pfx p (cmdpart ++ rem) hpsp hpne]
    have hdrop : (':' :: (p ++ ' ' :: (cmdpart ++ rem))).drop
        (p.length + 2) = cmdpart ++ rem := by
      have harr : ':' :: (p ++ ' ' :: (cmdpart ++ rem)) =
          ((':' :: p) ++ [' ']) ++ (cmdpart ++ rem) := by simp
      rw [harr]
      have hl : ((':' :: p) ++ [' ']).length = p.length + 2 := by simp
      rw [← hl, List.drop_left]
    have hstart : p.length + 2 ≤
        (':' :: (p ++ ' ' :: (cmdpart ++ rem))).length := by
      simp
    rw [parseAfter_spec _ (p.length + 2) (some p) cmdpart rem hstart
      hdrop h2 h4]

/-- C2 witness: the spec's own example, checked through the rule, with
and without a prefix. -/
theorem parse_parameter_rule_witness :
    tryFrom (str "PRIVMSG" ++ str " Cardinal :this is a test") =
      .ok ⟨none, str "PRIVMSG",
        paramsFromRemainder (str " Cardinal :this is a test")⟩ ∧
    tryFrom (':' :: (str "irc.example.net" ++ ' ' ::
        (str "PRIVMSG" ++ str " Cardinal :this is a test"))) =
      .ok ⟨some (str "irc.example.net"), str "PRIVMSG",
        paramsFromRemainder (str " Cardinal :this is a test")⟩ ∧
    paramsFromRemainder (str " Cardinal :this is a test") =
      [str "Cardinal", str "this is a test"] :=
  ⟨(parse_parameter_rule (str "PRIVMSG") (str " Cardinal :this is a test")
      (by decide) (by decide) (Or.inr (by decide))).1 (by decide),
   (parse_parameter_rule (str "PRIVMSG") (str " Cardinal :this is a test")
      (by decide) (by decide) (Or.inr (by decide))).2
      (str "irc.example.net") (by decide) (by decide),
   by decide⟩

/-- C2 counterexample: `"FOO "` has an empty remainder after the
command's trailing space, yet parses to ONE empty parameter, not zero. -/
theorem parse_empty_remainder_counterexample :
    tryFrom (str "FOO ") = .ok ⟨none, str "FOO", [[]]⟩ ∧
    ([[]] : List (List Char)) ≠ [] := ⟨by decide, by decide⟩

/-! ### Round-trip -/

theorem dropLast_dropLast_concat2 (l : List Char) (x y : Char) :
    ((l ++ [x, y]).dropLast).dropLast = l := by
  have h : l ++ [x, y] = (l ++ [x]) ++ [y] := by simp
  rw [h, List.dropLast_concat, List.dropLast_concat]

/-- C3 counterexample: round-trip fails for an arbitrary message — a
command containing a space parses back differently. -/
theorem roundtrip_counterexample :
    tryFrom (((to_line ⟨none, str "A B", [str "x"]⟩).dropLast).dropLast) =
      .ok ⟨none, str "A", [str "B", str "x"]⟩ ∧
    (⟨none, str "A", [str "B", str "x"]⟩ : IrcMessage) ≠
      ⟨none, str "A B", [str "x"]⟩ :=
  ⟨by decide, by decide⟩

/-- C3 (amended): parse-of-serialize recovers the message exactly for
every message with a non-empty parameter list that is wire-well-formed:
the prefix, when present, is non-empty and space-free; the command is
space-free and does not start with `':'`; every parameter except the
last is space-free and does not start with `':'`.  The serializer's
final CRLF is stripped before parsing, as the surrounding line reader
does. -/
theorem roundtrip (pfx0 : Option (List Char)) (cmd : List Char)
    (params : List (List Char)) (hne : params ≠ [])
    (hpfx : ∀ p, pfx0 = some p → p ≠ [] ∧ ' ' ∉ p)
    (hcmd : ' ' ∉ cmd) (hcmdc : cmd.head? ≠ some ':')
    (hmid : ∀ p ∈ params.dropLast, ' ' ∉ p ∧ p.head? ≠ some ':') :
    tryFrom (((to_line ⟨pfx0, cmd, params⟩).dropLast).dropLast) =
      .ok ⟨pfx0, cmd, params⟩ := by
  have hlen : 0 < params.length := List.length_pos.mpr hne
  have hlast : params.getLastD [] = params.getLast hne := by
    simp [List.getLastD_eq_getLast?, List.getLast?_eq_getLast _ hne]
  have hps : params.dropLast ++ [params.getLast hne] = params :=
    List.dropLast_append_getLast hne
  cases pfx0 with
  | none =>
      have hline : to_line ⟨none, cmd, params⟩ =
          (cmd ++ ' ' :: [' '].intercalate
            (params.dropLast ++ [':' :: params.getLast hne])) ++
            ['\r', '\n'] := by
        simp only [to_line, hlast, if_pos hlen]
        simp
      rw [hline, dropLast_dropLast_concat2]
      have hsne : cmd ++ ' ' :: [' '].intercalate
          (params.dropLast ++ [':' :: params.getLast hne]) ≠ [] := by simp
      have hh : (cmd ++ ' ' :: [' '].intercalate
          (params.dropLast ++ [':' :: params.getLast hne])).head? ≠
            some ':' := by
        cases cmd with
        | nil =>
            simp only [List.nil_append, List.head?_cons, Ne,
              Option.some.injEq]
            decide
        | cons a t => simpa using hcmdc
      rw [tryFrom_no_colon_head hsne hh]
      rw [parseAfter_spec _ 0 none cmd
        (' ' :: [' '].intercalate
          (params.dropLast ++ [':' :: params.getLast hne]))
        (by omega) (by simp) hcmd (Or.inr rfl)]
      rw [paramsFromRemainder_marked params.dropLast (params.getLast hne)
        hmid, hps]
  | some p =>
      obtain ⟨hpne, hpsp⟩ := hpfx p rfl
      have hline : to_line ⟨some p, cmd, params⟩ =
          (':' :: (p ++ ' ' :: (cmd ++ ' ' :: [' '].intercalate
            (params.dropLast ++ [':' :: params.getLast hne])))) ++
            ['\r', '\n'] := by
        simp only [to_line, hlast, if_pos hlen]
        simp
      rw [hline, dropLast_dropLast_concat2]
      rw [tryFrom_with_pfx p _ hpsp hpne]
      have harr : ':' :: (p ++ ' ' :: (cmd ++ ' ' :: [' '].intercalate
          (params.dropLast ++ [':' :: params.getLast hne]))) =
          ((':' :: p) ++ [' ']) ++ (cmd ++ ' ' :: [' '].intercalate
            (params.dropLast ++ [':' :: params.getLast hne])) := by simp
      have hdrop : (':' :: (p ++ ' ' :: (cmd ++ ' ' :: [' '].intercalate
          (params.dropLast ++ [':' :: params.getLast hne])))).drop
            (p.length + 2) = cmd ++ ' ' :: [' '].intercalate
              (params.dropLast ++ [':' :: params.getLast hne]) := by
        rw [harr]
        have hl : ((':' :: p) ++ [' ']).length = p.length + 2 := by simp
        rw [← hl, List.drop_left]
      have hstart : p.length + 2 ≤ (':' :: (p ++ ' ' :: (cmd ++ ' ' ::
          [' '].intercalate (params.dropLast ++
            [':' :: params.getLast hne])))).length := by
        simp
      rw [parseAfter_spec _ (p.length + 2) (some p) cmd
        (' ' :: [' '].intercalate
          (params.dropLast ++ [':' :: params.getLast hne]))
        hstart hdrop hcmd (Or.inr rfl)]
      rw [paramsFromRemainder_marked params.dropLast (params.getLast hne)
        hmid, hps]

/-- C3 witness: a concrete well-formed message round-trips. -/
theorem roundtrip_witness :
    tryFrom (((to_line ⟨some (str "irc.example.net"), str "PRIVMSG",
      [str "Cardinal", str "this is a test"]⟩).dropLast).dropLast) =
      .ok ⟨some (str "irc.example.net"), str "PRIVMSG",
        [str "Cardinal", str "this is a test"]⟩ :=
  roundtrip (some (str "irc.example.net")) (str "PRIVMSG")
    [str "Cardinal", str "this is a test"] (by decide)
    (by
      intro p hp
      have hp2 : str "irc.example.net" = p := by simpa using hp
      subst hp2
      exact ⟨by decide, by decide⟩)
    (by decide) (by decide)
    (by
      intro p hp
      have hp2 : p = str "Cardinal" := by simpa using hp
      subst hp2
      exact ⟨by decide, by decide⟩)

/-! ### Command interpreter -/

/-- C4: any command other than exactly `"PASS"`, `"NICK"`, `"USER"`
(case-sensitive) yields `UnknownCommand` carrying that exact command
string, for any parameter list; the interpreter is total. -/
theorem to_command_unknown (m : IrcMessage)
    (h1 : m.command ≠ str "PASS") (h2 : m.command ≠ str "NICK")
    (h3 : m.command ≠ str "USER") :
    to_command m = .error (.UnknownCommandError m.command) := by
  simp only [to_command, if_neg h1, if_neg h2, if_neg h3]

/-- C4 witness: lower-case `"pass"` does not match `"PASS"`. -/
theorem to_command_unknown_witness :
    to_command ⟨none, str "pass", [str "secret"]⟩ =
      .error (.UnknownCommandError (str "pass")) :=
  to_command_unknown ⟨none, str "pass", [str "secret"]⟩
    (by decide) (by decide) (by decide)

/-- C5: a recognized command with too few parameters fails on the first
missing one: `USER` with `k < 4` parameters yields index `k` and the
`k`-th name of `["user","mode","unused","realname"]`; `PASS` and `NICK`
with no parameters yield index 0 with names `"password"` and `"nick"`;
no partial success occurs. -/
theorem to_command_missing_parameter (m : IrcMessage) :
    (m.command = str "USER" → m.command_parameters.length < 4 →
      to_command m = .error (.MissingCommandParameterError (str "USER")
        ([str "user", str "mode", str "unused", str "realname"].getD
          m.command_parameters.length []) m.command_parameters.length)) ∧
    (m.command = str "PASS" → m.command_parameters = [] →
      to_command m = .error (.MissingCommandParameterError (str "PASS")
        (str "password") 0)) ∧
    (m.command = str "NICK" → m.command_parameters = [] →
      to_command m = .error (.MissingCommandParameterError (str "NICK")
        (str "nick") 0)) := by
  obtain ⟨mp, mc, mps⟩ := m
  have hup : str "USER" ≠ str "PASS" := by decide
  have hun : str "USER" ≠ str "NICK" := by decide
  have hnp : str "NICK" ≠ str "PASS" := by decide
  refine ⟨?_, ?_, ?_⟩
  · intro hc hlen
    subst hc
    rcases mps with _ | ⟨a, _ | ⟨b, _ | ⟨c, _ | ⟨d, t⟩⟩⟩⟩ <;>
      · simp_all [to_command, get_command_parameter, hup, hun, bind,
          Except.bind]
        try omega
  · intro hc hps
    subst hc
    subst hps
    simp [to_command, get_command_parameter, bind, Except.bind]
  · intro hc hps
    subst hc
    subst hps
    simp [to_command, get_command_parameter, hnp, bind, Except.bind]

/-- C5 witness: `USER` with two parameters fails at index 2 with name
`"unused"`; `PASS` and `NICK` with none fail at index 0. -/
theorem to_command_missing_parameter_witness :
    to_command ⟨none, str "USER", [str "u", str "m"]⟩ =
      .error (.MissingCommandParameterError (str "USER") (str "unused") 2) ∧
    to_command ⟨none, str "PASS", []⟩ =
      .error (.MissingCommandParameterError (str "PASS") (str "password") 0) ∧
    to_command ⟨none, str "NICK", []⟩ =
      .error (.MissingCommandParameterError (str "NICK") (str "nick") 0) :=
  ⟨by
    have h := (to_command_missing_parameter
      ⟨none, str "USER", [str "u", str "m"]⟩).1 rfl (by decide)
    simpa using h,
   (to_command_missing_parameter ⟨none, str "PASS", []⟩).2.1 rfl rfl,
   (to_command_missing_parameter ⟨none, str "NICK", []⟩).2.2 rfl rfl⟩

/-! ### Reply catalog and serializer shape -/

theorem to_line_pfx_two (q code a b : List Char) :
    to_line ⟨some q, code, [a, b]⟩ =
      ':' :: (q ++ ' ' :: (code ++ ' ' :: (a ++ ' ' :: ':' ::
        (b ++ ['\r', '\n'])))) := by
  simp [to_line, intercalate_cons, intercalate_single, List.append_assoc]

/-- C6: the Welcome reply renders, for all `nick`, `user`, `host`,
byte-for-byte as
`":localhost 001 " ++ nick ++ " :Welcome to the network " ++ nick ++ "!"
++ user ++ "@" ++ host ++ CRLF`. -/
theorem welcome_line (nick user host : List Char) :
    Reply.as_line (.RPL_WELCOME nick user host) =
      str ":localhost 001 " ++ nick ++ str " :Welcome to the network " ++
        nick ++ str "!" ++ user ++ str "@" ++ host ++ str "\r\n" := by
  have h1 : (str ":localhost 001 " : List Char) =
      ':' :: (str "localhost" ++ ' ' :: (str "001" ++ [' '])) := by decide
  have h2 : (str " :Welcome to the network " : List Char) =
      ' ' :: ':' :: str "Welcome to the network " := by decide
  have h3 : (str "\r\n" : List Char) = ['\r', '\n'] := by decide
  show to_line ⟨some (str "localhost"), str "001",
    [nick, str "Welcome to the network " ++ nick ++ str "!" ++ user ++
      str "@" ++ host]⟩ = _
  rw [to_line_pfx_two, h1, h2, h3]
  simp [List.append_assoc]

/-- C7: each reply has a fixed three-digit code from the closed set
{001, 421, 461}; each renders with prefix `"localhost"` and its code as
the command, with the claimed parameters; the two error replies render
to the exact wire lines. -/
theorem reply_catalog :
    (∀ n u h, Reply.as_str (.RPL_WELCOME n u h) = str "001") ∧
    (∀ c, Reply.as_str (.ERR_UNKNOWNCOMMAND c) = str "421") ∧
    (∀ c, Reply.as_str (.ERR_NEEDMOREPARAMS c) = str "461") ∧
    (∀ r : Reply, r.as_str = str "001" ∨ r.as_str = str "421" ∨
      r.as_str = str "461") ∧
    (∀ n u h, Reply.as_line (.RPL_WELCOME n u h) =
      to_line ⟨some (str "localhost"), str "001",
        [n, str "Welcome to the network " ++ n ++ str "!" ++ u ++
          str "@" ++ h]⟩) ∧
    (∀ c, Reply.as_line (.ERR_UNKNOWNCOMMAND c) =
      str ":localhost 421 " ++ c ++ str " :Unknown command" ++ str "\r\n") ∧
    (∀ c, Reply.as_line (.ERR_NEEDMOREPARAMS c) =
      str ":localhost 461 " ++ c ++ str " :Not enough parameters" ++
        str "\r\n") := by
  refine ⟨fun n u h => rfl, fun c => rfl, fun c => rfl, ?_,
    fun n u h => rfl, ?_, ?_⟩
  · intro r
    cases r with
    | RPL_WELCOME n u h => exact Or.inl rfl
    | ERR_UNKNOWNCOMMAND c => exact Or.inr (Or.inl rfl)
    | ERR_NEEDMOREPARAMS c => exact Or.inr (Or.inr rfl)
  · intro c
    have h1 : (str ":localhost 421 " : List Char) =
        ':' :: (str "localhost" ++ ' ' :: (str "421" ++ [' '])) := by decide
    have h2 : (str " :Unknown command" : List Char) =
        ' ' :: ':' :: str "Unknown command" := by decide
    show to_line ⟨some (str "localhost"), str "421",
      [c, str "Unknown command"]⟩ = _
    rw [to_line_pfx_two, h1, h2]
    have h3 : (str "\r\n" : List Char) = ['\r', '\n'] := by decide
    rw [h3]
    simp [List.append_assoc]
  · intro c
    have h1 : (str ":localhost 461 " : List Char) =
        ':' :: (str "localhost" ++ ' ' :: (str "461" ++ [' '])) := by decide
    have h2 : (str " :Not enough parameters" : List Char) =
        ' ' :: ':' :: str "Not enough parameters" := by decide
    show to_line ⟨some (str "localhost"), str "461",
      [c, str "Not enough parameters"]⟩ = _
    rw [to_line_pfx_two, h1, h2]
    have h3 : (str "\r\n" : List Char) = ['\r', '\n'] := by decide
    rw [h3]
    simp [List.append_assoc]

theorem getLastD_concat (ps : List (List Char)) (lst d : List Char) :
    (ps ++ [lst]).getLastD d = lst := by
  induction ps generalizing d with
  | nil => rfl
  | cons a t ih =>
      simp only [List.cons_append, List.getLastD_cons]
      exact ih a

/-- C8: the serializer emits `":" ++ prefix ++ " "` exactly when a prefix
is present, then the command; with parameters it emits a space and the
parameters joined on single spaces with the last replaced by
`":" ++ last` (so the colon is unconditional); with no parameters no
parameter text at all; and always a trailing CRLF. -/
theorem to_line_shape (m : IrcMessage) :
    (m.command_parameters = [] →
      to_line m = (match m.pfx with
        | some p => ':' :: p ++ [' ']
        | none => []) ++ m.command ++ ['\r', '\n']) ∧
    (∀ ps lst, m.command_parameters = ps ++ [lst] →
      to_line m = (match m.pfx with
        | some p => ':' :: p ++ [' ']
        | none => []) ++ m.command ++
          (' ' :: [' '].intercalate (ps ++ [':' :: lst])) ++ ['\r', '\n']) ∧
    (∀ ps lst, m.command_parameters = ps ++ [lst] → ps ≠ [] →
      to_line m = (match m.pfx with
        | some p => ':' :: p ++ [' ']
        | none => []) ++ m.command ++
          (' ' :: ([' '].intercalate ps ++ ' ' :: ':' :: lst)) ++
          ['\r', '\n']) := by
  obtain ⟨mp, mc, mps⟩ := m
  refine ⟨?_, ?_, ?_⟩
  · intro h
    subst h
    simp [to_line]
  · intro ps lst h
    subst h
    simp only [to_line, List.dropLast_concat, getLastD_concat]
    have hlen : (ps ++ [lst]).length > 0 := by simp
    rw [if_pos hlen]
  · intro ps lst h hne
    subst h
    simp only [to_line, List.dropLast_concat, getLastD_concat]
    have hlen : (ps ++ [lst]).length > 0 := by simp
    rw [if_pos hlen, intercalate_append_single ' ' hne (':' :: lst)]

/-- C8 witness: both shapes at concrete messages. -/
theorem to_line_shape_witness :
    to_line ⟨none, str "AWAY", []⟩ = [] ++ str "AWAY" ++ ['\r', '\n'] ∧
    to_line ⟨some (str "irc"), str "PRIVMSG", [str "X", str "hi"]⟩ =
      (':' :: str "irc" ++ [' ']) ++ str "PRIVMSG" ++
        (' ' :: ([' '].intercalate [str "X"] ++ ' ' :: ':' :: str "hi")) ++
        ['\r', '\n'] :=
  ⟨(to_line_shape ⟨none, str "AWAY", []⟩).1 rfl,
   (to_line_shape ⟨some (str "irc"), str "PRIVMSG",
      [str "X", str "hi"]⟩).2.2 [str "X"] (str "hi") rfl (by decide)⟩

/-! ### Panic-freedom of the byte-level parser -/

theorem get?_drop_my (l : List Nat) (i j : Nat) :
    (l.drop i).get? j = l.get? (i + j) := by
  rw [List.get?_eq_getElem?, List.get?_eq_getElem?, List.getElem?_drop]

theorem lt_of_get?_some {l : List Nat} {i x : Nat} (h : l.get? i = some x) :
    i < l.length := by
  by_contra hc
  rw [List.get?_eq_none.mpr (by omega)] at h
  exact Option.noConfusion h

theorem isSome_map {α β : Type} (f : α → β) (o : Option α) :
    (o.map f).isSome = o.isSome := by cases o <;> rfl

theorem bfind_some_get {b : Nat} :
    ∀ {l : List Nat} {i : Nat}, bfind b l = some i → l.get? i = some b := by
  intro l
  induction l with
  | nil => intro i h; simp [bfind] at h
  | cons x t ih =>
      intro i h
      by_cases hx : x = b
      · simp only [bfind, if_pos hx] at h
        obtain rfl : (0 : Nat) = i := by simpa using h
        simpa using hx
      · simp only [bfind, if_neg hx] at h
        rcases Option.map_eq_some'.mp h with ⟨j, hj, hji⟩
        subst hji
        simpa using ih hj

theorem bfind2_some_get {a b : Nat} :
    ∀ {l : List Nat} {i : Nat}, bfind2 a b l = some i →
      l.get? i = some a ∧ l.get? (i + 1) = some b := by
  intro l
  induction l with
  | nil => intro i h; simp [bfind2] at h
  | cons x t ih =>
      intro i h
      cases t with
      | nil => simp [bfind2] at h
      | cons y u =>
          by_cases hxy : x = a ∧ y = b
          · simp only [bfind2, if_pos hxy] at h
            obtain rfl : (0 : Nat) = i := by simpa using h
            exact ⟨by simpa using hxy.1, by simpa using hxy.2⟩
          · simp only [bfind2, if_neg hxy] at h
            rcases Option.map_eq_some'.mp h with ⟨j, hj, hji⟩
            subst hji
            have := ih hj
            exact ⟨by simpa using this.1, by simpa using this.2⟩

theorem isBoundary_iff {s : List Nat} {p : Nat} :
    isBoundary s p = true ↔
      (p = 0 ∨ p = s.length ∨ ∃ b, s.get? p = some b ∧ isCont b = false) := by
  unfold isBoundary
  cases hg : s.get? p <;> simp [hg, or_assoc]

theorem isBoundary_zero (s : List Nat) : isBoundary s 0 = true :=
  isBoundary_iff.mpr (Or.inl rfl)

theorem isBoundary_length (s : List Nat) : isBoundary s s.length = true :=
  isBoundary_iff.mpr (Or.inr (Or.inl rfl))

theorem isCont_false_of_lt {b : Nat} (h : b < 0x80) : isCont b = false := by
  simp [isCont]
  omega

theorem isBoundary_ascii {s : List Nat} {p b : Nat} (h : s.get? p = some b)
    (hb : b < 0x80) : isBoundary s p = true :=
  isBoundary_iff.mpr (Or.inr (Or.inr ⟨b, h, isCont_false_of_lt hb⟩))

theorem not_cont_of_valid_cons {y : Nat} {r : List Nat}
    (h : utf8Valid2 0 (y :: r) = true) : isCont y = false := by
  by_cases h1 : y < 0x80
  · exact isCont_false_of_lt h1
  · by_cases h2 : y < 0xC0
    · rw [utf8Valid2, if_neg h1, if_pos h2] at h
      exact absurd h (by decide)
    · simp [isCont]
      omega

theorem isBoundary_cons_succ {x : Nat} {r : List Nat} {p : Nat}
    (hp : p ≠ 0) :
    isBoundary (x :: r) (p + 1) = true ↔ isBoundary r p = true := by
  rw [isBoundary_iff, isBoundary_iff]
  constructor
  · rintro (h | h | ⟨b, hb1, hb2⟩)
    · omega
    · right
      left
      simpa using h
    · right
      right
      exact ⟨b, by simpa using hb1, hb2⟩
  · rintro (h | h | ⟨b, hb1, hb2⟩)
    · exact absurd h hp
    · right
      left
      simp [h]
    · right
      right
      exact ⟨b, by simpa using hb1, hb2⟩

/-- In a well-formed UTF-8 byte sequence (any automaton state), the
position after an ASCII byte is the end of the sequence or holds a
non-continuation byte. -/
theorem valid_ascii_next :
    ∀ (s : List Nat) (k : Nat), utf8Valid2 k s = true →
      ∀ i b, s.get? i = some b → b < 0x80 →
        (i + 1 = s.length ∨
          ∃ c, s.get? (i + 1) = some c ∧ isCont c = false) := by
  intro s
  induction s with
  | nil =>
      intro k hv i b hg hb
      simp at hg
  | cons x r ih =>
      intro k hv i b hg hb
      cases i with
      | zero =>
          have hbx : x = b := by simpa using hg
          subst hbx
          cases r with
          | nil =>
              left
              rfl
          | cons y r2 =>
              right
              cases k with
              | zero =>
                  rw [utf8Valid2, if_pos hb] at hv
                  exact ⟨y, rfl, not_cont_of_valid_cons hv⟩
              | succ m =>
                  rw [utf8Valid2] at hv
                  simp [isCont_false_of_lt hb] at hv
      | succ j =>
          have hg2 : r.get? j = some b := by simpa using hg
          have hr : ∃ k2, utf8Valid2 k2 r = true := by
            cases k with
            | zero =>
                rw [utf8Valid2] at hv
                by_cases h1 : x < 0x80
                · exact ⟨0, by rwa [if_pos h1] at hv⟩
                · by_cases h2 : x < 0xC0
                  · rw [if_neg h1, if_pos h2] at hv
                    exact absurd hv (by decide)
                  · by_cases h3 : x < 0xE0
                    · exact ⟨1, by rwa [if_neg h1, if_neg h2, if_pos h3] at hv⟩
                    · by_cases h4 : x < 0xF0
                      · exact ⟨2, by
                          rwa [if_neg h1, if_neg h2, if_neg h3,
                            if_pos h4] at hv⟩
                      · by_cases h5 : x < 0xF8
                        · exact ⟨3, by
                            rwa [if_neg h1, if_neg h2, if_neg h3, if_neg h4,
                              if_pos h5] at hv⟩
                        · rw [if_neg h1, if_neg h2, if_neg h3, if_neg h4,
                            if_neg h5] at hv
                          exact absurd hv (by decide)
            | succ m =>
                rw [utf8Valid2, Bool.and_eq_true] at hv
                exact ⟨m, hv.2⟩
          obtain ⟨k2, hk2⟩ := hr
          rcases ih k2 hk2 j b hg2 hb with h | ⟨c, hc1, hc2⟩
          · left
            simp [h]
          · right
            exact ⟨c, by simpa using hc1, hc2⟩

theorem boundary_after_ascii {s : List Nat} (hv : utf8ValidB s = true)
    {i b : Nat} (hg : s.get? i = some b) (hb : b < 0x80) :
    isBoundary s (i + 1) = true := by
  rcases valid_ascii_next s 0 hv i b hg hb with h | ⟨c, hc1, hc2⟩
  · rw [h]
    exact isBoundary_length s
  · exact isBoundary_iff.mpr (Or.inr (Or.inr ⟨c, hc1, hc2⟩))

theorem bsliceFrom_eq {s : List Nat} {a : Nat} (ha : a ≤ s.length)
    (hb : isBoundary s a = true) : bsliceFrom s a = some (s.drop a) := by
  unfold bsliceFrom bslice
  rw [if_pos ⟨ha, le_refl _, hb, isBoundary_length s⟩]
  have h1 : s.length - a = (s.drop a).length := (List.length_drop a s).symm
  rw [h1, List.take_length]

theorem bslice_some {s : List Nat} {a b : Nat} (hab : a ≤ b)
    (hbl : b ≤ s.length) (h1 : isBoundary s a = true)
    (h2 : isBoundary s b = true) :
    bslice s a b = some ((s.drop a).take (b - a)) := by
  unfold bslice
  rw [if_pos ⟨hab, hbl, h1, h2⟩]

theorem byteParseAfter_isSome (s : List Nat) (start0 : Nat)
    (pfx : Option (List Nat)) (hv : utf8ValidB s = true)
    (hle : start0 ≤ s.length) (hbd : isBoundary s start0 = true) :
    (byteParseAfter s start0 pfx).isSome = true := by
  rcases hfind : bfind 0x20 (s.drop start0) with _ | j
  · -- no space after the cursor: the command runs to end of line
    have hst : start0 + (s.drop start0).length = s.length := by
      rw [List.length_drop]
      omega
    simp only [byteParseAfter, bsliceFrom_eq hle hbd, hfind, Option.getD_none]
    rw [hst]
    simp only [bslice_some hle (le_refl _) hbd (isBoundary_length s),
      bsliceFrom_eq (le_refl _) (isBoundary_length s), List.drop_length,
      show bfind2 0x20 0x3A ([] : List Nat) = none from rfl,
      if_neg (lt_irrefl s.length), Option.isSome_some]
  · -- a space at relative index j ends the command
    have hj : (s.drop start0).get? j = some 0x20 := bfind_some_get hfind
    have hj2 : s.get? (start0 + j) = some 0x20 := by
      rw [← get?_drop_my]
      exact hj
    have hjlt : start0 + j < s.length := lt_of_get?_some hj2
    have hbj : isBoundary s (start0 + j) = true :=
      isBoundary_ascii hj2 (by norm_num)
    have hbj1 : isBoundary s (start0 + j + 1) = true :=
      boundary_after_ascii hv hj2 (by norm_num)
    simp only [byteParseAfter, bsliceFrom_eq hle hbd, hfind, Option.getD_some,
      bslice_some (Nat.le_add_right start0 j) (le_of_lt hjlt) hbd hbj,
      bsliceFrom_eq (le_of_lt hjlt) hbj]
    rcases hf2 : bfind2 0x20 0x3A (s.drop (start0 + j)) with _ | i
    · simp only [if_pos hjlt,
        bslice_some hjlt (le_refl _) hbj1 (isBoundary_length s),
        Option.isSome_some]
    · have hi := bfind2_some_get hf2
      have hsp1 : s.get? (start0 + j + i) = some 0x20 := by
        have h2 := hi.1
        rwa [get?_drop_my] at h2
      have hsp2 : s.get? (start0 + j + i + 1) = some 0x3A := by
        have h2 := hi.2
        rwa [get?_drop_my] at h2
      have hlt1 : start0 + j + i + 1 < s.length := lt_of_get?_some hsp2
      have hbsp : isBoundary s (start0 + j + i) = true :=
        isBoundary_ascii hsp1 (by norm_num)
      have hbsp2 : isBoundary s (start0 + j + i + 2) = true :=
        boundary_after_ascii hv hsp2 (by norm_num)
      have htr := bsliceFrom_eq
        (show start0 + j + i + 2 ≤ s.length by omega) hbsp2
      by_cases h0 : 0 < i
      · have hreg := bslice_some
          (show start0 + j + 1 ≤ start0 + j + i by omega)
          (show start0 + j + i ≤ s.length by omega) hbj1 hbsp
        simp only [hf2, htr,
          if_pos (show start0 + j < start0 + j + i by omega), hreg,
          Option.isSome_some]
      · have hi0 : i = 0 := by omega
        subst hi0
        simp only [hf2, htr,
          if_neg (show ¬ start0 + j < start0 + j + 0 by omega),
          Option.isSome_some]

/-- C10: the byte-level parser is total for every well-formed UTF-8
input: it always returns `some` (an `Ok` message or an `Err`), never the
`none` that models a panic — every slice boundary it computes is the
position of an ASCII space or colon, the position right after one, or
the string length, all of which are char boundaries in valid UTF-8. -/
theorem byteTryFrom_total (s : List Nat) (hv : utf8ValidB s = true) :
    (byteTryFrom s).isSome = true := by
  by_cases hs : s = []
  · subst hs
    rfl
  · simp only [byteTryFrom, if_neg hs]
    rcases hf : bfind 0x3A s with _ | n
    · simp only [isSome_map]
      exact byteParseAfter_isSome s 0 none hv (Nat.zero_le _)
        (isBoundary_zero s)
    · cases n with
      | succ m =>
          simp only [isSome_map]
          exact byteParseAfter_isSome s 0 none hv (Nat.zero_le _)
            (isBoundary_zero s)
      | zero =>
          have hcolon : s.get? 0 = some 0x3A := bfind_some_get hf
          have h0lt : 0 < s.length := lt_of_get?_some hcolon
          have hb1 : isBoundary s 1 = true :=
            boundary_after_ascii hv hcolon (by norm_num)
          simp only [bsliceFrom_eq h0lt hb1]
          rcases hf2 : bfind 0x20 (s.drop 1) with _ | m
          · simp [hf2]
          · cases m with
            | zero => simp [hf2]
            | succ pe =>
                have hsp : s.get? (pe + 2) = some 0x20 := by
                  have h2 := bfind_some_get hf2
                  rw [get?_drop_my] at h2
                  have h3 : 1 + (pe + 1) = pe + 2 := by omega
                  rwa [h3] at h2
                have hlt2 : pe + 2 < s.length := lt_of_get?_some hsp
                have hbsp : isBoundary s (pe + 2) = true :=
                  isBoundary_ascii hsp (by norm_num)
                have hb3 : isBoundary s (pe + 3) = true :=
                  boundary_after_ascii hv hsp (by norm_num)
                simp only [hf2, bslice_some (by omega : 1 ≤ pe + 2)
                  (by omega : pe + 2 ≤ s.length) hb1 hbsp, isSome_map]
                exact byteParseAfter_isSome s (pe + 3) _ hv (by omega) hb3

/-- C10 witness: a concrete line with multi-byte UTF-8 content (the
prefix is `"é"`, two bytes) parses without reaching any panic. -/
theorem byteTryFrom_total_witness :
    (byteTryFrom
      [0x3A, 0xC3, 0xA9, 0x20, 0x46, 0x4F, 0x4F, 0x20, 0x3A, 0xC3, 0xA9]
      ).isSome = true ∧
    byteTryFrom
      [0x3A, 0xC3, 0xA9, 0x20, 0x46, 0x4F, 0x4F, 0x20, 0x3A, 0xC3, 0xA9] =
      some (.ok ⟨some [0xC3, 0xA9], [0x46, 0x4F, 0x4F], [[0xC3, 0xA9]]⟩) :=
  ⟨byteTryFrom_total _ (by decide), by decide⟩

example : tryFrom (str ":irc.darkscience.net PRIVMSG Cardinal :this is a test") =
    .ok ⟨some (str "irc.darkscience.net"), str "PRIVMSG",
      [str "Cardinal", str "this is a test"]⟩ := by decide

example : tryFrom (str "LIST") = .ok ⟨none, str "LIST", []⟩ := by decide

example : tryFrom (str "MODE #test +v Cardinal") =
    .ok ⟨none, str "MODE", [str "#test", str "+v", str "Cardinal"]⟩ := by decide

example : tryFrom (str "PONG :irc.darkscience.net") =
    .ok ⟨none, str "PONG", [str "irc.darkscience.net"]⟩ := by decide

example : to_line ⟨some (str "localhost"), str "PRIVMSG",
    [str "Cardinal", str "this is an example"]⟩ =
    str ":localhost PRIVMSG Cardinal :this is an example\r\n" := by decide

example : tryFrom (str " FOO bar") = .ok ⟨none, [], [str "FOO", str "bar"]⟩ := by
  decide

example : tryFrom (str ":pre ") = .ok ⟨some (str "pre"), [], []⟩ := by decide

example : tryFrom (str "FOO ") = .ok ⟨none, str "FOO", [[]]⟩ := by decide

end Ircd
